import Mathlib

/-
Verification of the graph-diff engine of `diff_heu_heu` (file
`diff_heu_heu-checkpoint.py`).  Python dictionaries are embedded as
association lists (`List (K × V)`) whose entries appear in insertion
order; the assignment `d[k] = v` is embedded as `dictInsert`, which
overwrites the entry in place when the key is present and appends
otherwise, exactly mirroring CPython dict semantics.  Python `float`
values are embedded as rationals and `float(s)` as the decimal-string
parser `pyFloat?` (returning `none` where Python raises `ValueError`).
-/

set_option autoImplicit false

namespace DiffHeuHeu

/-- Keys of a directly-follows mapping: `(origin_name, dest_name)` tuples. -/
abbrev Key := String × String

/-- Lookup in an association list, first entry wins; embeds Python dict
lookup `d[k]` / `d.get(k)` (dicts never hold duplicate keys, so first
entry and only entry coincide on lists built with `dictInsert`). -/
def alookup {K V : Type} [DecidableEq K] (k : K) : List (K × V) → Option V
  | [] => none
  | p :: rest => if p.1 = k then some p.2 else alookup k rest

/-- Embeds the Python dict assignment `d[k] = v`: overwrite in place when
the key exists, append otherwise. -/
def dictInsert {K V : Type} [DecidableEq K] (d : List (K × V)) (k : K) (v : V) :
    List (K × V) :=
  if k ∈ d.map Prod.fst then
    d.map (fun p => if p.1 = k then (k, v) else p)
  else d ++ [(k, v)]

@[simp] theorem alookup_nil {K V : Type} [DecidableEq K] (k : K) :
    alookup (V := V) k [] = none := rfl

@[simp] theorem alookup_cons {K V : Type} [DecidableEq K] (k : K) (p : K × V)
    (rest : List (K × V)) :
    alookup k (p :: rest) = if p.1 = k then some p.2 else alookup k rest := rfl

theorem alookup_cons_self {K V : Type} [DecidableEq K] (k : K) (v : V)
    (rest : List (K × V)) : alookup k ((k, v) :: rest) = some v := by
  rw [alookup_cons, if_pos rfl]

theorem alookup_cons_ne {K V : Type} [DecidableEq K] {k1 k : K} (v : V)
    (rest : List (K × V)) (h : k1 ≠ k) :
    alookup k ((k1, v) :: rest) = alookup k rest := by
  rw [alookup_cons, if_neg h]

theorem alookup_eq_none_iff {K V : Type} [DecidableEq K] (k : K) (d : List (K × V)) :
    alookup k d = none ↔ k ∉ d.map Prod.fst := by
  induction d with
  | nil => simp
  | cons p rest ih =>
    rw [alookup_cons, List.map_cons]
    by_cases h : p.1 = k
    · simp [h]
    · rw [if_neg h, ih]
      constructor
      · intro hn hmem
        rcases List.mem_cons.mp hmem with hk | hk
        · exact h hk.symm
        · exact hn hk
      · intro hn hk
        exact hn (List.mem_cons_of_mem _ hk)

theorem alookup_isSome_iff {K V : Type} [DecidableEq K] (k : K) (d : List (K × V)) :
    (alookup k d).isSome = true ↔ k ∈ d.map Prod.fst := by
  rcases h : alookup k d with _ | v
  · simpa using (alookup_eq_none_iff k d).mp h
  · simp only [Option.isSome_some, true_iff]
    by_contra hmem
    rw [(alookup_eq_none_iff k d).mpr hmem] at h
    exact Option.noConfusion h

theorem alookup_mem {K V : Type} [DecidableEq K] {k : K} {v : V} :
    ∀ {d : List (K × V)}, alookup k d = some v → (k, v) ∈ d := by
  intro d
  induction d with
  | nil => intro h; exact Option.noConfusion h
  | cons p rest ih =>
    intro h
    obtain ⟨a, b⟩ := p
    by_cases hp : a = k
    · subst hp
      rw [alookup_cons, if_pos rfl] at h
      obtain rfl : b = v := Option.some.inj h
      exact List.mem_cons_self _ _
    · rw [alookup_cons, if_neg hp] at h
      exact List.mem_cons_of_mem _ (ih h)

theorem alookup_append {K V : Type} [DecidableEq K] (k : K) (d1 d2 : List (K × V)) :
    alookup k (d1 ++ d2) =
      match alookup k d1 with
      | some v => some v
      | none => alookup k d2 := by
  induction d1 with
  | nil => simp
  | cons p rest ih =>
    by_cases hp : p.1 = k
    · simp [alookup, hp]
    · simp [alookup, hp, ih]

theorem alookup_map_ne {K V : Type} [DecidableEq K] {k k2 : K} (v : V)
    (d : List (K × V)) (hne : k2 ≠ k) :
    alookup k2 (d.map (fun p => if p.1 = k then (k, v) else p)) = alookup k2 d := by
  induction d with
  | nil => rfl
  | cons p rest ih =>
    by_cases hp : p.1 = k
    · have h1 : ¬(k = k2) := fun h => hne h.symm
      have h2 : ¬(p.1 = k2) := by rw [hp]; exact h1
      simp only [List.map_cons, if_pos hp, alookup_cons, if_neg h1, if_neg h2, ih]
    · simp only [List.map_cons, if_neg hp, alookup_cons, ih]

theorem alookup_map_self {K V : Type} [DecidableEq K] {k : K} (v : V) :
    ∀ {d : List (K × V)}, k ∈ d.map Prod.fst →
      alookup k (d.map (fun p => if p.1 = k then (k, v) else p)) = some v := by
  intro d
  induction d with
  | nil => intro hmem; simp at hmem
  | cons p rest ih =>
    intro hmem
    by_cases hp : p.1 = k
    · simp [List.map_cons, if_pos hp, alookup_cons]
    · have hmem2 : k ∈ rest.map Prod.fst := by
        rw [List.map_cons] at hmem
        rcases List.mem_cons.mp hmem with h | h
        · exact absurd h.symm hp
        · exact h
      simp only [List.map_cons, if_neg hp, alookup_cons]
      exact ih hmem2

theorem alookup_dictInsert {K V : Type} [DecidableEq K] (d : List (K × V))
    (k k2 : K) (v : V) :
    alookup k2 (dictInsert d k v) = if k2 = k then some v else alookup k2 d := by
  unfold dictInsert
  by_cases hmem : k ∈ d.map Prod.fst
  · rw [if_pos hmem]
    by_cases hk : k2 = k
    · subst hk
      rw [if_pos rfl]
      exact alookup_map_self v hmem
    · rw [if_neg hk]
      exact alookup_map_ne v d hk
  · rw [if_neg hmem, alookup_append]
    rcases h1 : alookup k2 d with _ | w
    · by_cases hk : k2 = k
      · subst hk
        simp [alookup]
      · have hkk : ¬(k = k2) := fun h => hk h.symm
        simp [alookup, hk, hkk]
    · have hmem2 : k2 ∈ d.map Prod.fst :=
        (alookup_isSome_iff k2 d).mp (by rw [h1]; rfl)
      have hk : ¬(k2 = k) := fun he => hmem (he ▸ hmem2)
      rw [if_neg hk]

theorem dictInsert_map_fst {K V : Type} [DecidableEq K] (d : List (K × V))
    (k : K) (v : V) :
    (dictInsert d k v).map Prod.fst =
      if k ∈ d.map Prod.fst then d.map Prod.fst else d.map Prod.fst ++ [k] := by
  unfold dictInsert
  by_cases hmem : k ∈ d.map Prod.fst
  · rw [if_pos hmem, if_pos hmem, List.map_map]
    apply List.map_congr_left
    intro p _
    by_cases hp : p.1 = k
    · simp [hp]
    · simp [hp]
  · rw [if_neg hmem, if_neg hmem]
    simp

theorem nodup_dictInsert {K V : Type} [DecidableEq K] {d : List (K × V)}
    (k : K) (v : V) (h : (d.map Prod.fst).Nodup) :
    ((dictInsert d k v).map Prod.fst).Nodup := by
  rw [dictInsert_map_fst]
  by_cases hmem : k ∈ d.map Prod.fst
  · rwa [if_pos hmem]
  · rw [if_neg hmem, List.nodup_append]
    refine ⟨h, List.nodup_singleton k, ?_⟩
    intro a ha hak
    rw [List.mem_singleton] at hak
    subst hak
    exact hmem ha

theorem mem_dictInsert {K V : Type} [DecidableEq K] {p : K × V} {d : List (K × V)}
    {k : K} {v : V} (h : p ∈ dictInsert d k v) : p = (k, v) ∨ p ∈ d := by
  unfold dictInsert at h
  by_cases hmem : k ∈ d.map Prod.fst
  · rw [if_pos hmem] at h
    rcases List.mem_map.mp h with ⟨q, hq, hqe⟩
    by_cases hqk : q.1 = k
    · left
      rw [← hqe, if_pos hqk]
    · right
      rw [← hqe, if_neg hqk]
      exact hq
  · rw [if_neg hmem] at h
    rcases List.mem_append.mp h with h | h
    · right; exact h
    · left; simpa using h

/-- Numeric value of a list of decimal digit characters, most significant
first; helper for `pyFloat?`. -/
def digitsToNat (l : List Char) : Nat :=
  l.foldl (fun a c => 10 * a + (c.toNat - 48)) 0

/-- Exact decimal number with value `num / 10 ^ exp`; embeds the values
Python obtains by calling `float` on the decimal weight strings this
program handles (their arithmetic here is exact, abstracting from binary
floating point). -/
structure DecNum : Type where
  num : Int
  exp : Nat
  deriving DecidableEq

/-- Rational value denoted by a `DecNum`. -/
def DecNum.toRat (x : DecNum) : Rat :=
  (x.num : Rat) / (10 : Rat) ^ x.exp

/-- Exact difference of two decimal numbers, on a common denominator. -/
def DecNum.sub (x y : DecNum) : DecNum :=
  ⟨x.num * (10 : Int) ^ y.exp - y.num * (10 : Int) ^ x.exp, x.exp + y.exp⟩

/-- Integer nearest to `n / d` (for `d > 0`), ties to even — the rounding
mode of Python's builtin `round`.  `Int.ediv` rounds toward negative
infinity for a positive divisor, so `n - n.ediv d * d` is the
(nonnegative) remainder. -/
def roundNear (n d : Int) : Int :=
  if 2 * (n - Int.ediv n d * d) < d then Int.ediv n d
  else if d < 2 * (n - Int.ediv n d * d) then Int.ediv n d + 1
  else if Int.ediv n d % 2 = 0 then Int.ediv n d else Int.ediv n d + 1

/-- Number of thousandths of `round(v, 3)` where `v` is the value of the
decimal number: embeds Python `round(v, 3)` scaled by `1000`. -/
def DecNum.roundMilli (x : DecNum) : Int :=
  roundNear (x.num * 1000) ((10 : Int) ^ x.exp)

/-- Embeds Python `float(s)` on the decimal strings this program feeds it:
an optional sign, an integer part and an optional fractional part after a
dot.  Returns `none` exactly where Python raises `ValueError` (for
example on the placeholder string `-`). -/
def pyFloat? (s : String) : Option DecNum :=
  let signBody : Int × List Char :=
    match s.data with
    | '-' :: rest => (-1, rest)
    | '+' :: rest => (1, rest)
    | cs => (1, cs)
  let sign := signBody.1
  let body := signBody.2
  let ip := body.takeWhile Char.isDigit
  let rest := body.dropWhile Char.isDigit
  match rest with
  | [] => if ip.isEmpty then none else some ⟨sign * digitsToNat ip, 0⟩
  | '.' :: tl =>
    let fp := tl.takeWhile Char.isDigit
    let rest2 := tl.dropWhile Char.isDigit
    if rest2.isEmpty then
      if ip.isEmpty && fp.isEmpty then none
      else some ⟨sign * digitsToNat (ip ++ fp), fp.length⟩
    else none
  | _ => none

/-- Statuses stored (as the strings `ok`, `missing`, `extra`) in the first
result dictionary of `diff`. -/
inductive Status : Type
  | ok
  | missing
  | extra
  deriving DecidableEq

/-- Values stored in the second result dictionary `dfg_result_new` of
`diff`: a numeric delta (`count`, held as an integer number of
thousandths, since `round(-, 3)` always lands on the thousandths grid)
or the empty string marker. -/
inductive DeltaVal : Type
  | num (m : Int)
  | empty
  deriving DecidableEq

deriving instance DecidableEq for Except

/-- First loop of `diff` (lines 275-283 of the source): walks the entries
of `dfg_old`, classifying each key as `ok` or `missing` and recording a
delta when the old value is not the placeholder.  `Except.error ()`
embeds the uncaught `ValueError` raised by `float` on a non-numeric
string. -/
def diffAux1 {K : Type} [DecidableEq K] (dfg_new : List (K × String)) :
    List (K × String) → List (K × Status) → List (K × DeltaVal) →
      Except Unit (List (K × Status) × List (K × DeltaVal))
  | [], res, resNew => Except.ok (res, resNew)
  | (edge, vOld) :: rest, res, resNew =>
    match alookup edge dfg_new with
    | some vNew =>
      if vOld = "-" then
        diffAux1 dfg_new rest (dictInsert res edge Status.ok) resNew
      else
        match pyFloat? vOld, pyFloat? vNew with
        | some a, some b =>
          diffAux1 dfg_new rest (dictInsert res edge Status.ok)
            (dictInsert resNew edge (DeltaVal.num ((a.sub b).roundMilli)))
        | _, _ => Except.error ()
    | none =>
      diffAux1 dfg_new rest (dictInsert res edge Status.missing)
        (dictInsert resNew edge DeltaVal.empty)

/-- Second loop of `diff` (lines 285-287): every key of `dfg_new` absent
from `dfg_old` is marked `extra`. -/
def diffAux2 {K : Type} [DecidableEq K] (dfg_old : List (K × String)) :
    List (K × String) → List (K × Status) → List (K × Status)
  | [], res => res
  | (edge, _) :: rest, res =>
    match alookup edge dfg_old with
    | some _ => diffAux2 dfg_old rest res
    | none => diffAux2 dfg_old rest (dictInsert res edge Status.extra)

/-- Embeds the source function `diff` (lines 261-289): compares two
directly-follows dictionaries, returning the status dictionary
`dfg_result` and the delta dictionary `dfg_result_new`, or an error when
a `float` conversion raises. -/
def diff {K : Type} [DecidableEq K] (dfg_old dfg_new : List (K × String)) :
    Except Unit (List (K × Status) × List (K × DeltaVal)) :=
  match diffAux1 dfg_new dfg_old [] [] with
  | Except.error e => Except.error e
  | Except.ok (res, resNew) => Except.ok (diffAux2 dfg_old dfg_new res, resNew)

theorem DecNum.toRat_sub (x y : DecNum) : (x.sub y).toRat = x.toRat - y.toRat := by
  unfold DecNum.sub DecNum.toRat
  have h1 : ((10 : Rat) ^ x.exp) ≠ 0 := by positivity
  have h2 : ((10 : Rat) ^ y.exp) ≠ 0 := by positivity
  push_cast
  rw [pow_add]
  field_simp
  ring

theorem roundNear_close (n d : Int) (hd : 0 < d) :
    |(roundNear n d : Rat) - (n : Rat) / (d : Rat)| ≤ 1 / 2 := by
  have hdQ : (0 : Rat) < (d : Rat) := by exact_mod_cast hd
  have hr0 : (0 : Int) ≤ n - Int.ediv n d * d := by
    have h := Int.emod_nonneg n (ne_of_gt hd)
    rw [Int.emod_def] at h
    rw [mul_comm] at h
    exact h
  have hrd : n - Int.ediv n d * d < d := by
    have h := Int.emod_lt_of_pos n hd
    rw [Int.emod_def] at h
    rw [mul_comm] at h
    exact h
  have hr0Q : (0 : Rat) ≤ ((n - Int.ediv n d * d : Int) : Rat) := by exact_mod_cast hr0
  have hrdQ : ((n - Int.ediv n d * d : Int) : Rat) < (d : Rat) := by exact_mod_cast hrd
  have key : (n : Rat) / (d : Rat) - ((Int.ediv n d : Int) : Rat) =
      ((n - Int.ediv n d * d : Int) : Rat) / (d : Rat) := by
    push_cast
    field_simp
    ring
  have hq0 : (0 : Rat) ≤ ((n - Int.ediv n d * d : Int) : Rat) / (d : Rat) :=
    div_nonneg hr0Q hdQ.le
  have hq1 : ((n - Int.ediv n d * d : Int) : Rat) / (d : Rat) < 1 :=
    (div_lt_one hdQ).mpr hrdQ
  unfold roundNear
  split_ifs with h1 h2 h3
  · have h1Q : 2 * ((n - Int.ediv n d * d : Int) : Rat) < (d : Rat) := by exact_mod_cast h1
    have hhalf : ((n - Int.ediv n d * d : Int) : Rat) / (d : Rat) ≤ 1 / 2 := by
      rw [div_le_iff₀ hdQ]
      linarith
    rw [abs_le]
    constructor
    · linarith
    · linarith
  · have h2Q : (d : Rat) < 2 * ((n - Int.ediv n d * d : Int) : Rat) := by exact_mod_cast h2
    have hhalf : 1 / 2 ≤ ((n - Int.ediv n d * d : Int) : Rat) / (d : Rat) := by
      rw [le_div_iff₀ hdQ]
      linarith
    push_cast
    rw [abs_le]
    constructor
    · linarith
    · linarith
  · have heq : 2 * (n - Int.ediv n d * d) = d := by omega
    have heqQ : 2 * ((n - Int.ediv n d * d : Int) : Rat) = (d : Rat) := by exact_mod_cast heq
    have hhalf : ((n - Int.ediv n d * d : Int) : Rat) / (d : Rat) = 1 / 2 := by
      rw [div_eq_iff (ne_of_gt hdQ)]
      linarith
    rw [abs_le]
    constructor
    · linarith
    · linarith
  · have heq : 2 * (n - Int.ediv n d * d) = d := by omega
    have heqQ : 2 * ((n - Int.ediv n d * d : Int) : Rat) = (d : Rat) := by exact_mod_cast heq
    have hhalf : ((n - Int.ediv n d * d : Int) : Rat) / (d : Rat) = 1 / 2 := by
      rw [div_eq_iff (ne_of_gt hdQ)]
      linarith
    push_cast
    rw [abs_le]
    constructor
    · linarith
    · linarith

theorem DecNum.roundMilli_close (x : DecNum) :
    |(x.roundMilli : Rat) - x.toRat * 1000| ≤ 1 / 2 := by
  unfold DecNum.roundMilli
  have h := roundNear_close (x.num * 1000) ((10 : Int) ^ x.exp) (by positivity)
  have hv : x.toRat * 1000 =
      ((x.num * 1000 : Int) : Rat) / (((10 : Int) ^ x.exp : Int) : Rat) := by
    unfold DecNum.toRat
    push_cast
    ring
  rw [hv]
  exact h

theorem diffAux1_ok_status {K : Type} [DecidableEq K] (dfg_new : List (K × String)) :
    ∀ (olds : List (K × String)) (res : List (K × Status)) (resNew : List (K × DeltaVal))
      (res2 : List (K × Status)) (resNew2 : List (K × DeltaVal)),
      (olds.map Prod.fst).Nodup →
      diffAux1 dfg_new olds res resNew = Except.ok (res2, resNew2) →
      ∀ k, alookup k res2 =
        if k ∈ olds.map Prod.fst then
          some (if (alookup k dfg_new).isSome then Status.ok else Status.missing)
        else alookup k res := by
  intro olds
  induction olds with
  | nil =>
    intro res resNew res2 resNew2 hnd h k
    simp only [diffAux1] at h
    obtain ⟨rfl, rfl⟩ : res = res2 ∧ resNew = resNew2 := by
      cases h
      exact ⟨rfl, rfl⟩
    simp
  | cons p rest ih =>
    intro res resNew res2 resNew2 hnd h k
    obtain ⟨edge, vOld⟩ := p
    rw [List.map_cons, List.nodup_cons] at hnd
    obtain ⟨hmemrest, hndrest⟩ := hnd
    replace hmemrest : edge ∉ List.map Prod.fst rest := hmemrest
    have main : ∀ (st : Status) (resNewX : List (K × DeltaVal)),
        diffAux1 dfg_new rest (dictInsert res edge st) resNewX =
          Except.ok (res2, resNew2) →
        (if (alookup edge dfg_new).isSome then Status.ok else Status.missing) = st →
        alookup k res2 =
          if k ∈ List.map Prod.fst ((edge, vOld) :: rest) then
            some (if (alookup k dfg_new).isSome then Status.ok else Status.missing)
          else alookup k res := by
      intro st resNewX hrec hst
      have chr := ih (dictInsert res edge st) resNewX res2 resNew2 hndrest hrec k
      rw [List.map_cons]
      by_cases hk : k = edge
      · subst hk
        rw [if_pos (List.mem_cons_self _ _)]
        rw [if_neg hmemrest, alookup_dictInsert, if_pos rfl] at chr
        rw [chr, ← hst]
      · rw [alookup_dictInsert, if_neg hk] at chr
        rw [chr]
        by_cases hkr : k ∈ rest.map Prod.fst
        · rw [if_pos hkr, if_pos (List.mem_cons_of_mem _ hkr)]
        · rw [if_neg hkr, if_neg ?_]
          intro hc
          rcases List.mem_cons.mp hc with hc | hc
          · exact hk hc
          · exact hkr hc
    simp only [diffAux1] at h
    rcases hnew : alookup edge dfg_new with _ | vNew
    · simp only [hnew] at h
      exact main Status.missing (dictInsert resNew edge DeltaVal.empty) h
        (by rw [hnew]; rfl)
    · simp only [hnew] at h
      by_cases hp : vOld = "-"
      · rw [if_pos hp] at h
        exact main Status.ok resNew h (by rw [hnew]; rfl)
      · rw [if_neg hp] at h
        rcases ha : pyFloat? vOld with _ | a
        · rw [ha] at h
          exact absurd h (by rcases hb : pyFloat? vNew with _ | b <;> simp [hb])
        · rcases hb : pyFloat? vNew with _ | b
          · rw [ha, hb] at h
            exact absurd h (by simp)
          · rw [ha, hb] at h
            exact main Status.ok
              (dictInsert resNew edge (DeltaVal.num ((a.sub b).roundMilli))) h
              (by rw [hnew]; rfl)

theorem diffAux1_ok_delta {K : Type} [DecidableEq K] (dfg_new : List (K × String)) :
    ∀ (olds : List (K × String)) (res : List (K × Status)) (resNew : List (K × DeltaVal))
      (res2 : List (K × Status)) (resNew2 : List (K × DeltaVal)),
      (olds.map Prod.fst).Nodup →
      diffAux1 dfg_new olds res resNew = Except.ok (res2, resNew2) →
      ∀ k, alookup k resNew2 =
        match alookup k olds with
        | none => alookup k resNew
        | some vO =>
          match alookup k dfg_new with
          | none => some DeltaVal.empty
          | some vN =>
            if vO = "-" then alookup k resNew
            else some (DeltaVal.num
              ((((pyFloat? vO).getD ⟨0, 0⟩).sub ((pyFloat? vN).getD ⟨0, 0⟩)).roundMilli)) := by
  intro olds
  induction olds with
  | nil =>
    intro res resNew res2 resNew2 hnd h k
    simp only [diffAux1] at h
    obtain ⟨rfl, rfl⟩ : res = res2 ∧ resNew = resNew2 := by
      cases h
      exact ⟨rfl, rfl⟩
    simp
  | cons p rest ih =>
    intro res resNew res2 resNew2 hnd h k
    obtain ⟨edge, vOld⟩ := p
    rw [List.map_cons, List.nodup_cons] at hnd
    obtain ⟨hmemrest, hndrest⟩ := hnd
    replace hmemrest : edge ∉ List.map Prod.fst rest := hmemrest
    have hrestnone : alookup edge rest = (none : Option String) :=
      (alookup_eq_none_iff edge rest).mpr hmemrest
    simp only [diffAux1] at h
    rcases hnew : alookup edge dfg_new with _ | vNew
    · simp only [hnew] at h
      have chr := ih (dictInsert res edge Status.missing)
        (dictInsert resNew edge DeltaVal.empty) res2 resNew2 hndrest h k
      by_cases hk : edge = k
      · subst hk
        rw [chr]
        simp only [hrestnone, alookup_cons_self, hnew]
        rw [alookup_dictInsert, if_pos rfl]
      · rw [chr, alookup_cons_ne vOld rest hk]
        rcases hre : alookup k rest with _ | vO
        · simp only [hre]
          rw [alookup_dictInsert, if_neg (fun hc => hk hc.symm)]
        · simp only [hre]
          rcases hkn : alookup k dfg_new with _ | vN
          · simp only [hkn]
          · simp only [hkn]
            by_cases hv : vO = "-"
            · rw [if_pos hv, if_pos hv, alookup_dictInsert,
                if_neg (fun hc => hk hc.symm)]
            · rw [if_neg hv, if_neg hv]
    · simp only [hnew] at h
      by_cases hp : vOld = "-"
      · rw [if_pos hp] at h
        have chr := ih (dictInsert res edge Status.ok) resNew res2 resNew2 hndrest h k
        by_cases hk : edge = k
        · subst hk
          rw [chr]
          simp only [hrestnone, alookup_cons_self, hnew]
          rw [if_pos hp]
        · rw [chr, alookup_cons_ne vOld rest hk]
      · rw [if_neg hp] at h
        rcases ha : pyFloat? vOld with _ | a
        · rw [ha] at h
          exact absurd h (by rcases hb : pyFloat? vNew with _ | b <;> simp [hb])
        · rcases hb : pyFloat? vNew with _ | b
          · rw [ha, hb] at h
            exact absurd h (by simp)
          · rw [ha, hb] at h
            have h2 : diffAux1 dfg_new rest (dictInsert res edge Status.ok)
                (dictInsert resNew edge (DeltaVal.num ((a.sub b).roundMilli))) =
                Except.ok (res2, resNew2) := h
            have chr := ih (dictInsert res edge Status.ok)
              (dictInsert resNew edge (DeltaVal.num ((a.sub b).roundMilli)))
              res2 resNew2 hndrest h2 k
            by_cases hk : edge = k
            · subst hk
              rw [chr]
              simp only [hrestnone, alookup_cons_self, hnew]
              rw [if_neg hp, ha, hb, alookup_dictInsert, if_pos rfl]
              rfl
            · rw [chr, alookup_cons_ne vOld rest hk]
              rcases hre : alookup k rest with _ | vO
              · simp only [hre]
                rw [alookup_dictInsert, if_neg (fun hc => hk hc.symm)]
              · simp only [hre]
                rcases hkn : alookup k dfg_new with _ | vN
                · simp only [hkn]
                · simp only [hkn]
                  by_cases hv : vO = "-"
                  · rw [if_pos hv, if_pos hv, alookup_dictInsert,
                      if_neg (fun hc => hk hc.symm)]
                  · rw [if_neg hv, if_neg hv]

theorem diffAux1_ok_nodup {K : Type} [DecidableEq K] (dfg_new : List (K × String)) :
    ∀ (olds : List (K × String)) (res : List (K × Status)) (resNew : List (K × DeltaVal))
      (res2 : List (K × Status)) (resNew2 : List (K × DeltaVal)),
      diffAux1 dfg_new olds res resNew = Except.ok (res2, resNew2) →
      (res.map Prod.fst).Nodup → (res2.map Prod.fst).Nodup := by
  intro olds
  induction olds with
  | nil =>
    intro res resNew res2 resNew2 h hres
    simp only [diffAux1] at h
    obtain ⟨rfl, rfl⟩ : res = res2 ∧ resNew = resNew2 := by
      cases h
      exact ⟨rfl, rfl⟩
    exact hres
  | cons p rest ih =>
    intro res resNew res2 resNew2 h hres
    obtain ⟨edge, vOld⟩ := p
    simp only [diffAux1] at h
    rcases hnew : alookup edge dfg_new with _ | vNew
    · simp only [hnew] at h
      exact ih _ _ _ _ h (nodup_dictInsert _ _ hres)
    · simp only [hnew] at h
      by_cases hp : vOld = "-"
      · rw [if_pos hp] at h
        exact ih _ _ _ _ h (nodup_dictInsert _ _ hres)
      · rw [if_neg hp] at h
        rcases ha : pyFloat? vOld with _ | a
        · rw [ha] at h
          exact absurd h (by rcases hb : pyFloat? vNew with _ | b <;> simp [hb])
        · rcases hb : pyFloat? vNew with _ | b
          · rw [ha, hb] at h
            exact absurd h (by simp)
          · rw [ha, hb] at h
            have h2 : diffAux1 dfg_new rest (dictInsert res edge Status.ok)
                (dictInsert resNew edge (DeltaVal.num ((a.sub b).roundMilli))) =
                Except.ok (res2, resNew2) := h
            exact ih _ _ _ _ h2 (nodup_dictInsert _ _ hres)

theorem diffAux2_status {K : Type} [DecidableEq K] (dfg_old : List (K × String)) :
    ∀ (news : List (K × String)) (res : List (K × Status)),
      (news.map Prod.fst).Nodup →
      ∀ k, alookup k (diffAux2 dfg_old news res) =
        if k ∈ news.map Prod.fst ∧ alookup k dfg_old = none then some Status.extra
        else alookup k res := by
  intro news
  induction news with
  | nil =>
    intro res hnd k
    simp [diffAux2]
  | cons p rest ih =>
    intro res hnd k
    obtain ⟨edge, v⟩ := p
    rw [List.map_cons, List.nodup_cons] at hnd
    obtain ⟨hmemrest, hndrest⟩ := hnd
    replace hmemrest : edge ∉ List.map Prod.fst rest := hmemrest
    simp only [diffAux2]
    rcases hold : alookup edge dfg_old with _ | w
    · simp only [hold]
      rw [ih (dictInsert res edge Status.extra) hndrest k]
      by_cases hk : k = edge
      · subst hk
        rw [if_neg (fun hc => hmemrest hc.1), alookup_dictInsert, if_pos rfl,
          if_pos ⟨List.mem_cons_self _ _, hold⟩]
      · rw [alookup_dictInsert, if_neg hk]
        by_cases hc : k ∈ rest.map Prod.fst ∧ alookup k dfg_old = none
        · rw [if_pos hc, if_pos ⟨List.mem_cons_of_mem _ hc.1, hc.2⟩]
        · rw [if_neg hc, if_neg ?_]
          intro hc2
          apply hc
          refine ⟨?_, hc2.2⟩
          rcases List.mem_cons.mp hc2.1 with hm | hm
          · exact absurd hm hk
          · exact hm
    · simp only [hold]
      rw [ih res hndrest k]
      by_cases hk : k = edge
      · subst hk
        rw [if_neg (fun hc => hmemrest hc.1), if_neg ?_]
        intro hc
        rw [hold] at hc
        exact Option.noConfusion hc.2
      · by_cases hc : k ∈ rest.map Prod.fst ∧ alookup k dfg_old = none
        · rw [if_pos hc, if_pos ⟨List.mem_cons_of_mem _ hc.1, hc.2⟩]
        · rw [if_neg hc, if_neg ?_]
          intro hc2
          apply hc
          refine ⟨?_, hc2.2⟩
          rcases List.mem_cons.mp hc2.1 with hm | hm
          · exact absurd hm hk
          · exact hm

theorem diffAux2_nodup {K : Type} [DecidableEq K] (dfg_old : List (K × String)) :
    ∀ (news : List (K × String)) (res : List (K × Status)),
      (res.map Prod.fst).Nodup →
      ((diffAux2 dfg_old news res).map Prod.fst).Nodup := by
  intro news
  induction news with
  | nil =>
    intro res hres
    exact hres
  | cons p rest ih =>
    intro res hres
    obtain ⟨edge, v⟩ := p
    simp only [diffAux2]
    rcases hold : alookup edge dfg_old with _ | w
    · simp only [hold]
      exact ih _ (nodup_dictInsert _ _ hres)
    · simp only [hold]
      exact ih _ hres

theorem diff_ok_status {K : Type} [DecidableEq K] (old new : List (K × String))
    (st : List (K × Status)) (dm : List (K × DeltaVal))
    (hO : (old.map Prod.fst).Nodup) (hN : (new.map Prod.fst).Nodup)
    (h : diff old new = Except.ok (st, dm)) :
    ∀ k, alookup k st =
      if k ∈ old.map Prod.fst then
        some (if k ∈ new.map Prod.fst then Status.ok else Status.missing)
      else if k ∈ new.map Prod.fst then some Status.extra else none := by
  intro k
  unfold diff at h
  rcases haux : diffAux1 new old [] [] with e | ⟨res, resNew⟩
  · simp only [haux] at h
    exact absurd h (by simp)
  · simp only [haux] at h
    obtain ⟨rfl, rfl⟩ : diffAux2 old new res = st ∧ resNew = dm := by
      cases h
      exact ⟨rfl, rfl⟩
    rw [diffAux2_status old new res hN k,
      diffAux1_ok_status new old [] [] res resNew hO haux k]
    by_cases hkO : k ∈ old.map Prod.fst
    · have hne : alookup k old ≠ none :=
        fun hc => (alookup_eq_none_iff k old).mp hc hkO
      rw [if_neg (fun hc => hne hc.2), if_pos hkO, if_pos hkO]
      by_cases hkN : k ∈ new.map Prod.fst
      · rw [if_pos hkN, if_pos ((alookup_isSome_iff k new).mpr hkN)]
      · rw [if_neg hkN, if_neg ?_]
        rw [(alookup_eq_none_iff k new).mpr hkN]
        simp
    · have hnone : alookup k old = none := (alookup_eq_none_iff k old).mpr hkO
      rw [if_neg hkO, if_neg hkO]
      by_cases hkN : k ∈ new.map Prod.fst
      · rw [if_pos ⟨hkN, hnone⟩, if_pos hkN]
      · rw [if_neg (fun hc => hkN hc.1), if_neg hkN]
        simp

theorem diff_ok_delta {K : Type} [DecidableEq K] (old new : List (K × String))
    (st : List (K × Status)) (dm : List (K × DeltaVal))
    (hO : (old.map Prod.fst).Nodup)
    (h : diff old new = Except.ok (st, dm)) :
    ∀ k, alookup k dm =
      match alookup k old with
      | none => none
      | some vO =>
        match alookup k new with
        | none => some DeltaVal.empty
        | some vN =>
          if vO = "-" then none
          else some (DeltaVal.num
            ((((pyFloat? vO).getD ⟨0, 0⟩).sub ((pyFloat? vN).getD ⟨0, 0⟩)).roundMilli)) := by
  intro k
  unfold diff at h
  rcases haux : diffAux1 new old [] [] with e | ⟨res, resNew⟩
  · simp only [haux] at h
    exact absurd h (by simp)
  · simp only [haux] at h
    obtain ⟨rfl, rfl⟩ : diffAux2 old new res = st ∧ resNew = dm := by
      cases h
      exact ⟨rfl, rfl⟩
    rw [diffAux1_ok_delta new old [] [] res resNew hO haux k]
    rcases hoo : alookup k old with _ | vO
    · simp only [hoo, alookup_nil]
    · simp only [hoo]
      rcases hnn : alookup k new with _ | vN
      · simp only [hnn]
      · simp only [hnn]
        by_cases hv : vO = "-"
        · rw [if_pos hv, if_pos hv, alookup_nil]
        · rw [if_neg hv, if_neg hv]

theorem diff_ok_st_nodup {K : Type} [DecidableEq K] (old new : List (K × String))
    (st : List (K × Status)) (dm : List (K × DeltaVal))
    (h : diff old new = Except.ok (st, dm)) :
    (st.map Prod.fst).Nodup := by
  unfold diff at h
  rcases haux : diffAux1 new old [] [] with e | ⟨res, resNew⟩
  · simp only [haux] at h
    exact absurd h (by simp)
  · simp only [haux] at h
    obtain ⟨rfl, rfl⟩ : diffAux2 old new res = st ∧ resNew = dm := by
      cases h
      exact ⟨rfl, rfl⟩
    exact diffAux2_nodup old new res
      (diffAux1_ok_nodup new old [] [] res resNew haux (by simp))

theorem diffAux1_isOk {K : Type} [DecidableEq K] (dfg_new : List (K × String)) :
    ∀ (olds : List (K × String)) (res : List (K × Status)) (resNew : List (K × DeltaVal)),
      (∀ p ∈ olds, ∀ vN, alookup p.1 dfg_new = some vN → p.2 ≠ "-" →
        (pyFloat? p.2).isSome = true ∧ (pyFloat? vN).isSome = true) →
      ∃ pr, diffAux1 dfg_new olds res resNew = Except.ok pr := by
  intro olds
  induction olds with
  | nil =>
    intro res resNew _
    exact ⟨(res, resNew), rfl⟩
  | cons p rest ih =>
    intro res resNew H
    obtain ⟨edge, vOld⟩ := p
    have Hrest : ∀ p ∈ rest, ∀ vN, alookup p.1 dfg_new = some vN → p.2 ≠ "-" →
        (pyFloat? p.2).isSome = true ∧ (pyFloat? vN).isSome = true :=
      fun q hq => H q (List.mem_cons_of_mem _ hq)
    simp only [diffAux1]
    rcases hnew : alookup edge dfg_new with _ | vNew
    · simp only [hnew]
      exact ih _ _ Hrest
    · simp only [hnew]
      by_cases hp : vOld = "-"
      · rw [if_pos hp]
        exact ih _ _ Hrest
      · rw [if_neg hp]
        obtain ⟨hsa, hsb⟩ := H (edge, vOld) (List.mem_cons_self _ _) vNew hnew hp
        rcases ha : pyFloat? vOld with _ | a
        · rw [ha] at hsa
          exact absurd hsa (by simp)
        · rcases hb : pyFloat? vNew with _ | b
          · rw [hb] at hsb
            exact absurd hsb (by simp)
          · simp only [ha, hb]
            exact ih _ _ Hrest

theorem diff_isOk {K : Type} [DecidableEq K] (old new : List (K × String))
    (H : ∀ p ∈ old, ∀ vN, alookup p.1 new = some vN → p.2 ≠ "-" →
      (pyFloat? p.2).isSome = true ∧ (pyFloat? vN).isSome = true) :
    ∃ st dm, diff old new = Except.ok (st, dm) := by
  obtain ⟨⟨res, resNew⟩, haux⟩ := diffAux1_isOk new old [] [] H
  refine ⟨diffAux2 old new res, resNew, ?_⟩
  unfold diff
  rw [haux]

/-- First whitespace-delimited token of a label or name: Python
`s.split(' ')[0]`, i.e. the characters before the first space
(`split(' ')` on the empty string yields `[""]`, so this is total). -/
def firstToken (s : String) : String :=
  String.mk (s.data.takeWhile (fun c => c ≠ ' '))

/-- Embeds `from_list_edges_to_dict` (lines 246-259): builds a dictionary
mapping each edge's endpoint pair, truncated to first tokens, to the
placeholder string. -/
def from_list_edges_to_dict (edges_origin_dest_labels : List (String × String)) :
    List (Key × String) :=
  edges_origin_dest_labels.foldl
    (fun d edge => dictInsert d (firstToken edge.1, firstToken edge.2) "-") []

/-- Node-diff record with the `green` and `red` components of
`create_dict_diff`. -/
structure DictDiff (T : Type) where
  green : Finset T
  red : Finset T

/-- Embeds `create_dict_diff` (lines 212-226): pure set difference both
ways; `red` holds elements of the first list missing from the second,
`green` the converse.  The Python `list(...)` materialization order of a
set is unspecified and irrelevant here, so the sets themselves are kept. -/
def create_dict_diff {T : Type} [DecidableEq T] (list1 list2 : List T) : DictDiff T :=
  ⟨list2.toFinset \ list1.toFinset, list1.toFinset \ list2.toFinset⟩

/-- Sentinel rewrite of one tuple element (line 303 of the source). -/
def canonEl (s : String) : String :=
  if s = "@@S" then "Start" else if s = "@@E" then "End" else s

/-- Sentinel rewrite of a whole key tuple. -/
def canonKey (k : Key) : Key := (canonEl k.1, canonEl k.2)

/-- Embeds `modifica_dfg_result` (lines 291-307): a dict comprehension
rewriting every key through `canonKey`, values untouched.  A Python dict
comprehension inserts in iteration order and overwrites on key
collisions, which `dictInsert` reproduces. -/
def modifica_dfg_result {V : Type} (dfg_result : List (Key × V)) : List (Key × V) :=
  dfg_result.foldl (fun acc p => dictInsert acc (canonKey p.1) p.2) []

/-- The lookup table `labels_names_inv` of `match_binary_names_labels`
(line 190): `dict(zip(binary_names, first tokens of labels))`.  `zip`
truncates to the shorter sequence; a later duplicate key overwrites an
earlier one. -/
def labels_names_inv (binary_names labels : List String) : List (String × String) :=
  (binary_names.zip (labels.map firstToken)).foldl
    (fun d p => dictInsert d p.1 p.2) []

/-- Embeds `match_binary_names_labels` (lines 178-196): rewrites each
edge endpoint through the table, falling back to the raw identifier on a
lookup miss (Python `dict.get(key, default)`). -/
def match_binary_names_labels (edges_origin_dest : List (String × String))
    (binary_names labels : List String) : List (String × String) :=
  edges_origin_dest.map (fun edge =>
    ((alookup edge.1 (labels_names_inv binary_names labels)).getD edge.1,
     (alookup edge.2 (labels_names_inv binary_names labels)).getD edge.2))

/-- Attribute dictionaries of graphviz nodes, as ordered key/value lists. -/
abbrev AttrList := List (String × String)

/-- The `common_node_attributes` dictionary (lines 329-336). -/
def common_node_attributes : AttrList :=
  [("fillcolor", "#33CBCB"), ("fontcolor", "black"), ("shape", "box"),
   ("style", "filled"), ("width", "1.4514"), ("height", "0.5")]

/-- Attributes given to one node by the loop at lines 338-363 of
`draw_diff`. -/
def nodeAttributes (green red : List String) (a : String) : AttrList :=
  if a = "Start" then
    dictInsert (dictInsert (dictInsert (dictInsert common_node_attributes
      "fillcolor" "#32CD32") "shape" "circle") "width" "0.75") "label" ""
  else if a = "End" then
    dictInsert (dictInsert (dictInsert (dictInsert (dictInsert common_node_attributes
      "fillcolor" "#FFA500") "shape" "circle") "width" "0.75") "label" "")
      "color" "#FFFFFF"
  else if a ∈ green then
    dictInsert (dictInsert (dictInsert common_node_attributes
      "fillcolor" "white") "color" "#0d79ec") "penwidth" "2"
  else if a ∈ red then
    dictInsert (dictInsert (dictInsert common_node_attributes
      "fillcolor" "white") "color" "#ec555b") "penwidth" "2"
  else dictInsert common_node_attributes "fillcolor" "white"

/-- The distinct node names appearing in the keys of the status mapping
(`unique_keys`, lines 325-327).  Python iterates this set in an
unspecified order; the claims proved below do not depend on that order,
so one concrete order (first occurrence) is fixed here. -/
def uniqueKeysList (dfg_diff : List (Key × Status)) : List String :=
  (dfg_diff.foldl (fun acc p => acc ++ [p.1.1, p.1.2]) []).dedup

/-- A directed graph as accumulated by a graphviz `Digraph` object:
nodes with attribute dictionaries and edges `(origin, dest, color,
style)`, in insertion order. -/
structure DotGraph where
  nodes : List (String × AttrList)
  edges : List (String × String × String × String)

/-- Embeds the graph-construction part of `draw_diff` (lines 309-382):
the node loop, the edge loop (every edge solid, label empty), and the
empty-diff informational node added when the status mapping has no
entries.  The trailing `dot.render` call writes a file and adds nothing
to the graph; its sequencing in `main` is modelled by `mainRenderPhase`
below. -/
def draw_diff (dfg_diff : List (Key × Status)) (green red : List String) : DotGraph :=
  let ns := (uniqueKeysList dfg_diff).map (fun a => (a, nodeAttributes green red a))
  let es := dfg_diff.map (fun p =>
    if p.1.1 ∈ green ∨ p.1.2 ∈ green then (p.1.1, p.1.2, "#0d79ec", "solid")
    else (p.1.1, p.1.2, (if p.2 = Status.ok then "black" else "red"), "solid"))
  ⟨if dfg_diff.length = 0 then
      ns ++ [("There are no differences between the formal model and the simulated one!",
              [("color", "white")])]
    else ns,
   es⟩

/-- State of the rendering phase of `main`: which render calls have been
attempted and which output files have been produced. -/
structure RenderState where
  attempted : List String
  produced : List String
  deriving DecidableEq

/-- One `dot.render` call (line 380) for target `name`: success depends
on the environment `env` (for example, path writability).  On success
the file is produced; on failure a `RenderError` escapes as an uncaught
exception (`Except.error`).  Either way the call was attempted. -/
def tryRender (env : String → Bool) (name : String) (s : RenderState) :
    Except RenderState RenderState :=
  if env name then Except.ok ⟨s.attempted ++ [name], s.produced ++ [name]⟩
  else Except.error ⟨s.attempted ++ [name], s.produced⟩

/-- Embeds the rendering phase of `main` (lines 455-462): the full
diagram is rendered, then the filtered one — two sequential calls with
no exception handler between them, so an error raised by the first call
propagates out of `main` and the second call is never reached. -/
def mainRenderPhase (env : String → Bool)
    (output_full output_filtered_full : String) :
    Except RenderState RenderState :=
  match tryRender env output_full ⟨[], []⟩ with
  | Except.error s => Except.error s
  | Except.ok s => tryRender env output_filtered_full s

theorem nodup_foldl_dictInsert {K V A : Type} [DecidableEq K] (kf : A → K) (vf : A → V) :
    ∀ (L : List A) (acc : List (K × V)), (acc.map Prod.fst).Nodup →
      ((L.foldl (fun d x => dictInsert d (kf x) (vf x)) acc).map Prod.fst).Nodup := by
  intro L
  induction L with
  | nil =>
    intro acc h
    exact h
  | cons x rest ih =>
    intro acc h
    simp only [List.foldl_cons]
    exact ih _ (nodup_dictInsert _ _ h)

theorem mem_foldl_dictInsert {K V A : Type} [DecidableEq K] (kf : A → K) (vf : A → V) :
    ∀ (L : List A) (acc : List (K × V)) (p : K × V),
      p ∈ L.foldl (fun d x => dictInsert d (kf x) (vf x)) acc →
      p ∈ acc ∨ ∃ x ∈ L, p = (kf x, vf x) := by
  intro L
  induction L with
  | nil =>
    intro acc p hp
    left
    exact hp
  | cons x rest ih =>
    intro acc p hp
    simp only [List.foldl_cons] at hp
    rcases ih _ p hp with hin | ⟨x2, hx2, he⟩
    · rcases mem_dictInsert hin with he | hin2
      · right
        exact ⟨x, List.mem_cons_self _ _, he⟩
      · left
        exact hin2
    · right
      exact ⟨x2, List.mem_cons_of_mem _ hx2, he⟩

theorem mem_zip_getElem? {A B : Type} :
    ∀ (l1 : List A) (l2 : List B) (a : A) (b : B),
      (a, b) ∈ l1.zip l2 → ∃ i : Nat, l1[i]? = some a ∧ l2[i]? = some b := by
  intro l1
  induction l1 with
  | nil =>
    intro l2 a b h
    simp [List.zip] at h
  | cons x rest ih =>
    intro l2 a b h
    cases l2 with
    | nil => simp [List.zip] at h
    | cons y rest2 =>
      rcases List.mem_cons.mp h with he | hm
      · refine ⟨0, ?_, ?_⟩
        · simpa using congrArg Prod.fst he.symm
        · simpa using congrArg Prod.snd he.symm
      · obtain ⟨i, h1, h2⟩ := ih rest2 a b hm
        exact ⟨i + 1, by simpa using h1, by simpa using h2⟩

theorem canonEl_idem (s : String) : canonEl (canonEl s) = canonEl s := by
  by_cases h1 : s = "@@S"
  · subst h1
    decide
  · by_cases h2 : s = "@@E"
    · subst h2
      decide
    · have hc : canonEl s = s := by
        unfold canonEl
        rw [if_neg h1, if_neg h2]
      rw [hc]
      exact hc

theorem canonKey_idem (k : Key) : canonKey (canonKey k) = canonKey k := by
  unfold canonKey
  rw [canonEl_idem, canonEl_idem]

theorem foldl_canonIns_eq_append {V : Type} :
    ∀ (l : List (Key × V)) (acc : List (Key × V)),
      (l.map Prod.fst).Nodup →
      (∀ p ∈ l, canonKey p.1 = p.1) →
      (∀ q ∈ l.map Prod.fst, q ∉ acc.map Prod.fst) →
      l.foldl (fun a p => dictInsert a (canonKey p.1) p.2) acc = acc ++ l := by
  intro l
  induction l with
  | nil =>
    intro acc _ _ _
    simp
  | cons p rest ih =>
    intro acc hnd hcanon hdisj
    rw [List.map_cons, List.nodup_cons] at hnd
    obtain ⟨hmem, hnd⟩ := hnd
    replace hmem : p.1 ∉ List.map Prod.fst rest := hmem
    have hp : canonKey p.1 = p.1 := hcanon p (List.mem_cons_self _ _)
    have hnotin : p.1 ∉ acc.map Prod.fst :=
      hdisj p.1 (by rw [List.map_cons]; exact List.mem_cons_self _ _)
    have hins : dictInsert acc p.1 p.2 = acc ++ [p] := by
      unfold dictInsert
      rw [if_neg hnotin]
    simp only [List.foldl_cons]
    rw [hp, hins, ih (acc ++ [p]) hnd
      (fun q hq => hcanon q (List.mem_cons_of_mem _ hq)) ?_]
    · simp
    · intro q hq
      rw [List.map_append]
      intro hcon
      rcases List.mem_append.mp hcon with hx | hx
      · exact hdisj q (by rw [List.map_cons]; exact List.mem_cons_of_mem _ hq) hx
      · simp only [List.map_cons, List.map_nil, List.mem_singleton] at hx
        exact hmem (hx ▸ hq)

/-- C1: the status mapping of `diff` covers exactly the union of the two
key sets — for every key the looked-up status is `ok` when the key is in
both inputs, `missing` when only in the old one, `extra` when only in
the new one, and absent otherwise (a characterization depending only on
key membership, hence independent of the inputs' iteration order) — and
the status mapping holds each key exactly once. -/
theorem diff_status_covers_union {K : Type} [DecidableEq K]
    (old new : List (K × String)) (st : List (K × Status)) (dm : List (K × DeltaVal))
    (hO : (old.map Prod.fst).Nodup) (hN : (new.map Prod.fst).Nodup)
    (h : diff old new = Except.ok (st, dm)) :
    (∀ k, alookup k st =
      if k ∈ old.map Prod.fst then
        some (if k ∈ new.map Prod.fst then Status.ok else Status.missing)
      else if k ∈ new.map Prod.fst then some Status.extra else none) ∧
    (st.map Prod.fst).Nodup :=
  ⟨diff_ok_status old new st dm hO hN h, diff_ok_st_nodup old new st dm h⟩

/-- Witness for C1 at a concrete pair of mappings. -/
theorem diff_status_covers_union_witness :
    alookup (("A", "B") : Key)
      [((("A", "B") : Key), Status.ok), (("B", "C"), Status.missing),
       (("C", "D"), Status.extra)] = some Status.ok ∧
    alookup (("B", "C") : Key)
      [((("A", "B") : Key), Status.ok), (("B", "C"), Status.missing),
       (("C", "D"), Status.extra)] = some Status.missing ∧
    alookup (("C", "D") : Key)
      [((("A", "B") : Key), Status.ok), (("B", "C"), Status.missing),
       (("C", "D"), Status.extra)] = some Status.extra ∧
    alookup (("Z", "Z") : Key)
      [((("A", "B") : Key), Status.ok), (("B", "C"), Status.missing),
       (("C", "D"), Status.extra)] = none := by
  have h := diff_status_covers_union
    [((("A", "B") : Key), "-"), (("B", "C"), "-")]
    [((("A", "B") : Key), "-"), (("C", "D"), "-")]
    [((("A", "B") : Key), Status.ok), (("B", "C"), Status.missing),
     (("C", "D"), Status.extra)]
    [((("B", "C") : Key), DeltaVal.empty)]
    (by decide) (by decide) (by decide)
  refine ⟨?_, ?_, ?_, ?_⟩
  · rw [h.1 ("A", "B")]
    decide
  · rw [h.1 ("B", "C")]
    decide
  · rw [h.1 ("C", "D")]
    decide
  · rw [h.1 ("Z", "Z")]
    decide

/-- C2 counterexample: with old value `5.0` (numeric) and new value the
placeholder `-` at the same key — a pair of inputs whose non-placeholder
values are all numeric strings — `diff` does attempt the conversion
`float("-")` (the code only guards on the old value) and the conversion
error escapes, contrary to the claim. -/
theorem diff_new_placeholder_raises :
    diff [((("A", "B") : Key), "5.0")] [((("A", "B") : Key), "-")] =
      Except.error () := by decide

/-- C2 amended: `diff` guards the delta computation only on the old
value not being the placeholder.  Whenever, at every key shared by both
inputs whose old value is non-placeholder, both values parse as numbers,
`diff` succeeds; numeric deltas appear only for keys present in both
inputs with non-placeholder old value; and a key whose old value is the
placeholder never receives a numeric delta. -/
theorem diff_delta_guard {K : Type} [DecidableEq K] (old new : List (K × String))
    (hO : (old.map Prod.fst).Nodup)
    (H : ∀ p ∈ old, ∀ vN, alookup p.1 new = some vN → p.2 ≠ "-" →
      (pyFloat? p.2).isSome = true ∧ (pyFloat? vN).isSome = true) :
    ∃ st dm, diff old new = Except.ok (st, dm) ∧
      (∀ k m, alookup k dm = some (DeltaVal.num m) →
        ∃ vO vN, alookup k old = some vO ∧ alookup k new = some vN ∧ vO ≠ "-") ∧
      (∀ k m, alookup k old = some "-" →
        alookup k dm ≠ some (DeltaVal.num m)) := by
  obtain ⟨st, dm, hdiff⟩ := diff_isOk old new H
  refine ⟨st, dm, hdiff, ?_, ?_⟩
  · intro k m hk
    have hc := diff_ok_delta old new st dm hO hdiff k
    rw [hk] at hc
    rcases ho : alookup k old with _ | vO
    · simp only [ho] at hc
      exact absurd hc (by simp)
    · simp only [ho] at hc
      rcases hn : alookup k new with _ | vN
      · simp only [hn] at hc
        exact absurd hc (by simp)
      · simp only [hn] at hc
        by_cases hv : vO = "-"
        · rw [if_pos hv] at hc
          exact absurd hc (by simp)
        · exact ⟨vO, vN, rfl, rfl, hv⟩
  · intro k m ho hk
    have hc := diff_ok_delta old new st dm hO hdiff k
    simp only [ho] at hc
    rcases hn : alookup k new with _ | vN
    · simp only [hn] at hc
      rw [hk] at hc
      exact absurd hc (by simp)
    · simp only [hn] at hc
      rw [hk] at hc
      simp at hc

/-- Witness for C2's amended theorem at a concrete pair of mappings. -/
theorem diff_delta_guard_witness :
    ∃ st dm,
      diff [((("A", "B") : Key), "5.0")] [((("A", "B") : Key), "3.0")] =
        Except.ok (st, dm) ∧
      (∀ k m, alookup k dm = some (DeltaVal.num m) →
        ∃ vO vN, alookup k [((("A", "B") : Key), "5.0")] = some vO ∧
          alookup k [((("A", "B") : Key), "3.0")] = some vN ∧ vO ≠ "-") ∧
      (∀ k m, alookup k [((("A", "B") : Key), "5.0")] = some "-" →
        alookup k dm ≠ some (DeltaVal.num m)) :=
  diff_delta_guard [((("A", "B") : Key), "5.0")] [((("A", "B") : Key), "3.0")]
    (by decide)
    (by
      intro p hp vN hvN hne
      rw [List.mem_singleton] at hp
      subst hp
      simp [alookup] at hvN
      subst hvN
      exact ⟨by decide, by decide⟩)

/-- C3 counterexample: in an environment where every render fails, the
full-diagram render raises and the filtered-diagram render is never
attempted — the attempted list of the escaping error state holds only
the first target — contradicting the claim that the caller still
attempts the second render after the first fails. -/
theorem render_failure_aborts_second :
    mainRenderPhase (fun _ => false) "full" "filtered" =
      Except.error ⟨["full"], []⟩ ∧
    "filtered" ∉ (["full"] : List String) := by
  constructor
  · rfl
  · decide

/-- C3 amended: a render failure propagates out of `main` uncaught.  If
the full render fails, the error escapes with only that render attempted
and no file produced — the filtered render is not attempted.  If the
full render succeeds and the filtered one fails, both were attempted
and exactly the full-diagram file was produced, so the earlier
successful output is not corrupted.  If both succeed, both files are
produced. -/
theorem render_sequence_amended (env : String → Bool) (n1 n2 : String) :
    (env n1 = false → mainRenderPhase env n1 n2 = Except.error ⟨[n1], []⟩) ∧
    (env n1 = true → env n2 = false →
      mainRenderPhase env n1 n2 = Except.error ⟨[n1, n2], [n1]⟩) ∧
    (env n1 = true → env n2 = true →
      mainRenderPhase env n1 n2 = Except.ok ⟨[n1, n2], [n1, n2]⟩) := by
  refine ⟨?_, ?_, ?_⟩
  · intro h1
    unfold mainRenderPhase tryRender
    rw [h1]
    simp
  · intro h1 h2
    unfold mainRenderPhase tryRender
    rw [h1, h2]
    simp
  · intro h1 h2
    unfold mainRenderPhase tryRender
    rw [h1, h2]
    simp

/-- Witness for C3's amended theorem: second render failing still leaves
the first file produced. -/
theorem render_sequence_amended_witness :
    mainRenderPhase (fun n => n == "full") "full" "filtered" =
      Except.error ⟨["full", "filtered"], ["full"]⟩ := by
  have h := (render_sequence_amended (fun n => n == "full") "full" "filtered").2.1
  exact h (by decide) (by decide)

/-- C4: node-diff symmetry — for all lists `A`, `B`, the `green`
component of `create_dict_diff A B` equals the `red` component of
`create_dict_diff B A` and vice versa, where `green` collects the
elements in the second argument but not the first and `red` the
converse. -/
theorem create_dict_diff_symm {T : Type} [DecidableEq T] (A B : List T) :
    (create_dict_diff A B).green = (create_dict_diff B A).red ∧
    (create_dict_diff A B).red = (create_dict_diff B A).green ∧
    (∀ x, x ∈ (create_dict_diff A B).green ↔ x ∈ B ∧ x ∉ A) ∧
    (∀ x, x ∈ (create_dict_diff A B).red ↔ x ∈ A ∧ x ∉ B) := by
  refine ⟨rfl, rfl, ?_, ?_⟩ <;> intro x <;>
    simp [create_dict_diff, Finset.mem_sdiff, List.mem_toFinset]

/-- Witness for C4 on concrete lists. -/
theorem create_dict_diff_symm_witness :
    (create_dict_diff ["a", "b"] ["b", "c"]).green =
      (create_dict_diff ["b", "c"] ["a", "b"]).red ∧
    ("c" ∈ (create_dict_diff ["a", "b"] ["b", "c"]).green ↔
      "c" ∈ ["b", "c"] ∧ "c" ∉ ["a", "b"]) := by
  have h := create_dict_diff_symm ["a", "b"] ["b", "c"]
  exact ⟨h.1, h.2.2.1 "c"⟩

/-- C5: the canonicalizer `modifica_dfg_result` is idempotent — applied
twice it yields the same mapping as applied once — and, being a total
function, is defined on every input mapping. -/
theorem modifica_dfg_result_idem {V : Type} (d : List (Key × V)) :
    modifica_dfg_result (modifica_dfg_result d) = modifica_dfg_result d := by
  have hnd : ((modifica_dfg_result d).map Prod.fst).Nodup := by
    unfold modifica_dfg_result
    exact nodup_foldl_dictInsert (fun q => canonKey q.1) (fun q => q.2) d [] (by simp)
  have hcanon : ∀ p ∈ modifica_dfg_result d, canonKey p.1 = p.1 := by
    intro p hp
    unfold modifica_dfg_result at hp
    rcases mem_foldl_dictInsert (fun q => canonKey q.1) (fun q => q.2) d [] p hp with
      hin | ⟨q, _, he⟩
    · simp at hin
    · rw [he]
      exact canonKey_idem q.1
  have h := foldl_canonIns_eq_append (modifica_dfg_result d) [] hnd hcanon (by simp)
  have h2 : modifica_dfg_result (modifica_dfg_result d) =
      [] ++ modifica_dfg_result d := h
  simpa using h2

/-- Witness for C5 on a concrete mapping containing both sentinels. -/
theorem modifica_dfg_result_idem_witness :
    modifica_dfg_result (modifica_dfg_result
      [((("@@S", "x") : Key), Status.ok), ((("x", "@@E") : Key), Status.missing)]) =
    modifica_dfg_result
      [((("@@S", "x") : Key), Status.ok), ((("x", "@@E") : Key), Status.missing)] :=
  modifica_dfg_result_idem _

/-- C6: identity resolution — the resolver keeps edge count and order,
rewriting each endpoint through the raw-id table independently; an
endpoint absent from the table resolves to itself (pass-through, never a
failure or a dropped edge); and every table entry sends a raw identifier
to the first space-delimited token of a positionally corresponding
label. -/
theorem match_binary_names_labels_resolution
    (edges : List (String × String)) (bn ls : List String) :
    (match_binary_names_labels edges bn ls).length = edges.length ∧
    (∀ i : Nat, (match_binary_names_labels edges bn ls)[i]? =
      (edges[i]?).map (fun e =>
        ((alookup e.1 (labels_names_inv bn ls)).getD e.1,
         (alookup e.2 (labels_names_inv bn ls)).getD e.2))) ∧
    (∀ x, alookup x (labels_names_inv bn ls) = none →
      (alookup x (labels_names_inv bn ls)).getD x = x) ∧
    (∀ x y, alookup x (labels_names_inv bn ls) = some y →
      ∃ i : Nat, ∃ l, bn[i]? = some x ∧ ls[i]? = some l ∧ y = firstToken l) := by
  refine ⟨?_, ?_, ?_, ?_⟩
  · unfold match_binary_names_labels
    simp
  · intro i
    unfold match_binary_names_labels
    simp [List.getElem?_map]
  · intro x hx
    rw [hx]
    rfl
  · intro x y hxy
    have hmem : (x, y) ∈ labels_names_inv bn ls := alookup_mem hxy
    rcases mem_foldl_dictInsert Prod.fst Prod.snd
      (bn.zip (ls.map firstToken)) [] (x, y) hmem with hin | ⟨q, hq, he⟩
    · simp at hin
    · have hq2 : (x, y) ∈ bn.zip (ls.map firstToken) := by
        have heq : q = (x, y) := by
          obtain ⟨q1, q2⟩ := q
          exact he.symm
        rwa [heq] at hq
      obtain ⟨i, h1, h2⟩ := mem_zip_getElem? bn (ls.map firstToken) x y hq2
      rcases hl : ls[i]? with _ | l
      · rw [List.getElem?_map, hl] at h2
        exact absurd h2 (by simp)
      · rw [List.getElem?_map, hl] at h2
        refine ⟨i, l, h1, hl, ?_⟩
        exact (Option.some.inj h2).symm

/-- Witness for C6: one matched endpoint (first token of its label) and
one pass-through endpoint. -/
theorem match_binary_names_labels_resolution_witness :
    (match_binary_names_labels [(("n0", "n1") : String × String)]
      ["n0"] ["Act extra"]).length = 1 ∧
    (match_binary_names_labels [(("n0", "n1") : String × String)]
      ["n0"] ["Act extra"])[0]? = some ("Act", "n1") := by
  have h := match_binary_names_labels_resolution
    [(("n0", "n1") : String × String)] ["n0"] ["Act extra"]
  refine ⟨h.1, ?_⟩
  rw [h.2.1 0]
  decide

/-- C7: on an empty status mapping, `draw_diff` builds a graph with
exactly one node — the informational no-differences node, colored
white — and zero edges, never an empty canvas. -/
theorem draw_diff_empty_info (green red : List String) :
    (draw_diff [] green red).nodes =
      [("There are no differences between the formal model and the simulated one!",
        [("color", "white")])] ∧
    (draw_diff [] green red).edges = [] :=
  ⟨rfl, rfl⟩

/-- Witness for C7 at concrete node-diff sets. -/
theorem draw_diff_empty_info_witness :
    (draw_diff [] ["g"] ["r"]).nodes =
      [("There are no differences between the formal model and the simulated one!",
        [("color", "white")])] ∧
    (draw_diff [] ["g"] ["r"]).edges = [] :=
  draw_diff_empty_info ["g"] ["r"]

/-- C8: edge rendering rule precedence in `draw_diff` — for every key of
the status mapping, in order, the emitted edge is blue (`#0d79ec`) solid
when either endpoint is in the green set, otherwise black solid when the
status is `ok`, otherwise (missing or extra) red solid; and the red node
set never affects the emitted edges. -/
theorem draw_diff_edge_rules (dfg : List (Key × Status)) (green red : List String) :
    ((draw_diff dfg green red).edges = dfg.map (fun p =>
      (p.1.1, p.1.2,
       (if p.1.1 ∈ green ∨ p.1.2 ∈ green then "#0d79ec"
        else if p.2 = Status.ok then "black" else "red"),
       "solid"))) ∧
    (∀ red2, (draw_diff dfg green red).edges = (draw_diff dfg green red2).edges) := by
  constructor
  · show dfg.map (fun p =>
        if p.1.1 ∈ green ∨ p.1.2 ∈ green then (p.1.1, p.1.2, "#0d79ec", "solid")
        else (p.1.1, p.1.2, (if p.2 = Status.ok then "black" else "red"), "solid")) = _
    apply List.map_congr_left
    intro p _
    by_cases h : p.1.1 ∈ green ∨ p.1.2 ∈ green
    · rw [if_pos h, if_pos h]
    · rw [if_neg h, if_neg h]
  · intro red2
    rfl

/-- Witness for C8: an edge touching a green node is blue even though
its status is `missing`, and changing the red set changes nothing. -/
theorem draw_diff_edge_rules_witness :
    ((draw_diff [((("a", "b") : Key), Status.missing)] ["b"] []).edges =
      [(("a" : String), ("b" : String), ("#0d79ec" : String), ("solid" : String))]) ∧
    (draw_diff [((("a", "b") : Key), Status.missing)] ["b"] []).edges =
      (draw_diff [((("a", "b") : Key), Status.missing)] ["b"] ["zzz"]).edges := by
  have h := draw_diff_edge_rules [((("a", "b") : Key), Status.missing)] ["b"] []
  constructor
  · rw [h.1]
    decide
  · exact h.2 ["zzz"]

/-- C9: delta sign convention — at a key present in both inputs whose
values parse as the numbers `a` (old) and `b` (new), the recorded delta
is the integer number of thousandths (deltas are stored scaled by 1000)
rounding `a - b` to 3 decimal places: its value `m / 1000` differs from
`a - b` by at most half a thousandth. -/
theorem diff_delta_sign {K : Type} [DecidableEq K] (old new : List (K × String))
    (st : List (K × Status)) (dm : List (K × DeltaVal)) (k : K)
    (vO vN : String) (a b : DecNum)
    (hO : (old.map Prod.fst).Nodup)
    (h : diff old new = Except.ok (st, dm))
    (hkO : alookup k old = some vO) (hkN : alookup k new = some vN)
    (ha : pyFloat? vO = some a) (hb : pyFloat? vN = some b) :
    alookup k dm = some (DeltaVal.num ((a.sub b).roundMilli)) ∧
    |((a.sub b).roundMilli : Rat) / 1000 - (a.toRat - b.toRat)| ≤ 1 / 2000 := by
  have hv : vO ≠ "-" := by
    intro hc
    rw [hc] at ha
    rw [show pyFloat? "-" = (none : Option DecNum) from by decide] at ha
    exact Option.noConfusion ha
  constructor
  · have hc := diff_ok_delta old new st dm hO h k
    simp only [hkO, hkN] at hc
    rw [if_neg hv, ha, hb] at hc
    simpa using hc
  · have hclose := DecNum.roundMilli_close (a.sub b)
    rw [DecNum.toRat_sub] at hclose
    have heq : ((a.sub b).roundMilli : Rat) / 1000 - (a.toRat - b.toRat) =
        (((a.sub b).roundMilli : Rat) - (a.toRat - b.toRat) * 1000) / 1000 := by
      ring
    rw [heq, abs_div, show |(1000 : Rat)| = 1000 from by norm_num,
      div_le_iff₀ (by norm_num : (0 : Rat) < 1000)]
    calc |((a.sub b).roundMilli : Rat) - (a.toRat - b.toRat) * 1000|
        ≤ 1 / 2 := hclose
      _ = 1 / 2000 * 1000 := by norm_num

/-- Witness for C9: old `5.0`, new `3.0` — the recorded delta is 2000
thousandths, exactly 2.0. -/
theorem diff_delta_sign_witness :
    (alookup (("A", "B") : Key) [((("A", "B") : Key), DeltaVal.num 2000)] =
      some (DeltaVal.num ((DecNum.sub ⟨50, 1⟩ ⟨30, 1⟩).roundMilli))) ∧
    (DecNum.sub ⟨50, 1⟩ ⟨30, 1⟩).roundMilli = 2000 := by
  have h := diff_delta_sign
    [((("A", "B") : Key), "5.0")] [((("A", "B") : Key), "3.0")]
    [((("A", "B") : Key), Status.ok)]
    [((("A", "B") : Key), DeltaVal.num 2000)]
    ("A", "B") "5.0" "3.0" ⟨50, 1⟩ ⟨30, 1⟩
    (by decide) (by decide) (by decide) (by decide) (by decide) (by decide)
  exact ⟨h.1, by decide⟩

/-- C10: `from_list_edges_to_dict` maps every key — an endpoint pair
truncated to first space-delimited tokens — to the placeholder `-`;
consequently the pipeline's diff of two such dictionaries always
succeeds and its delta mapping holds no numeric delta, only empty
markers, exactly at the keys whose status is `missing`. -/
theorem pipeline_delta_only_empty (A B : List (String × String)) :
    (∀ p ∈ from_list_edges_to_dict A, p.2 = "-" ∧
      ∃ e ∈ A, p.1 = (firstToken e.1, firstToken e.2)) ∧
    ∃ st dm,
      diff (from_list_edges_to_dict A) (from_list_edges_to_dict B) =
        Except.ok (st, dm) ∧
      (∀ k m, alookup k dm ≠ some (DeltaVal.num m)) ∧
      (∀ k, alookup k dm = some DeltaVal.empty ↔
        alookup k st = some Status.missing) := by
  have hvals : ∀ p ∈ from_list_edges_to_dict A, p.2 = "-" ∧
      ∃ e ∈ A, p.1 = (firstToken e.1, firstToken e.2) := by
    intro p hp
    unfold from_list_edges_to_dict at hp
    rcases mem_foldl_dictInsert (fun e => (firstToken e.1, firstToken e.2))
      (fun _ => "-") A [] p hp with hin | ⟨e, he, hpe⟩
    · simp at hin
    · rw [hpe]
      exact ⟨rfl, e, he, rfl⟩
  have hA : ((from_list_edges_to_dict A).map Prod.fst).Nodup := by
    unfold from_list_edges_to_dict
    exact nodup_foldl_dictInsert (fun e => (firstToken e.1, firstToken e.2))
      (fun _ => "-") A [] (by simp)
  have hB : ((from_list_edges_to_dict B).map Prod.fst).Nodup := by
    unfold from_list_edges_to_dict
    exact nodup_foldl_dictInsert (fun e => (firstToken e.1, firstToken e.2))
      (fun _ => "-") B [] (by simp)
  have H : ∀ p ∈ from_list_edges_to_dict A, ∀ vN,
      alookup p.1 (from_list_edges_to_dict B) = some vN → p.2 ≠ "-" →
      (pyFloat? p.2).isSome = true ∧ (pyFloat? vN).isSome = true := by
    intro p hp vN _ hne
    exact absurd (hvals p hp).1 hne
  obtain ⟨st, dm, hdiff⟩ := diff_isOk _ _ H
  refine ⟨hvals, st, dm, hdiff, ?_, ?_⟩
  · intro k m hk
    have hc := diff_ok_delta _ _ st dm hA hdiff k
    rw [hk] at hc
    rcases ho : alookup k (from_list_edges_to_dict A) with _ | vO
    · simp only [ho] at hc
      exact absurd hc (by simp)
    · have hvO : vO = "-" := (hvals _ (alookup_mem ho)).1
      subst hvO
      simp only [ho] at hc
      rcases hn : alookup k (from_list_edges_to_dict B) with _ | vN
      · simp only [hn] at hc
        exact absurd hc (by simp)
      · simp only [hn] at hc
        simp at hc
  · intro k
    have hc := diff_ok_delta _ _ st dm hA hdiff k
    have hs := diff_ok_status _ _ st dm hA hB hdiff k
    constructor
    · intro hk
      rw [hk] at hc
      rcases ho : alookup k (from_list_edges_to_dict A) with _ | vO
      · simp only [ho] at hc
        exact absurd hc (by simp)
      · rcases hn : alookup k (from_list_edges_to_dict B) with _ | vN
        · have hmemA : k ∈ (from_list_edges_to_dict A).map Prod.fst :=
            (alookup_isSome_iff _ _).mp (by rw [ho]; rfl)
          have hmemB : k ∉ (from_list_edges_to_dict B).map Prod.fst :=
            (alookup_eq_none_iff _ _).mp hn
          rw [hs, if_pos hmemA, if_neg hmemB]
        · have hvO : vO = "-" := (hvals _ (alookup_mem ho)).1
          subst hvO
          simp only [ho, hn] at hc
          simp at hc
    · intro hk
      by_cases hmemA : k ∈ (from_list_edges_to_dict A).map Prod.fst
      · by_cases hmemB : k ∈ (from_list_edges_to_dict B).map Prod.fst
        · rw [hs, if_pos hmemA, if_pos hmemB] at hk
          exact absurd hk (by simp)
        · rcases ho : alookup k (from_list_edges_to_dict A) with _ | vO
          · exact absurd ((alookup_eq_none_iff _ _).mp ho) (by simpa using hmemA)
          · have hn : alookup k (from_list_edges_to_dict B) = none :=
              (alookup_eq_none_iff _ _).mpr hmemB
            simp only [ho, hn] at hc
            exact hc
      · rw [hs, if_neg hmemA] at hk
        by_cases hmemB : k ∈ (from_list_edges_to_dict B).map Prod.fst
        · rw [if_pos hmemB] at hk
          exact absurd hk (by simp)
        · rw [if_neg hmemB] at hk
          exact absurd hk (by simp)

/-- Witness for C10 on concrete edge lists. -/
theorem pipeline_delta_only_empty_witness :
    (∀ p ∈ from_list_edges_to_dict [(("A x", "B y") : String × String)], p.2 = "-" ∧
      ∃ e ∈ [(("A x", "B y") : String × String)],
        p.1 = (firstToken e.1, firstToken e.2)) ∧
    ∃ st dm,
      diff (from_list_edges_to_dict [(("A x", "B y") : String × String)])
        (from_list_edges_to_dict []) = Except.ok (st, dm) ∧
      (∀ k m, alookup k dm ≠ some (DeltaVal.num m)) ∧
      (∀ k, alookup k dm = some DeltaVal.empty ↔
        alookup k st = some Status.missing) :=
  pipeline_delta_only_empty [("A x", "B y")] []

end DiffHeuHeu
